import Mathlib

/-!
# Verification of the deps2changesets dependency-change engine

A shallow embedding, in Lean 4, of the core of `deps2changesets`: the
manifest differ (`DependencyChangeAnalyzer.comparePackageJsons`), the
workspace resolver (`WorkspacePackages.findByFilePath`), the change
detector (`DependencyChangeAnalyzer.detectChangedPackages` together with
`analyzeDependencyChanges` and `getChangedPackageJsonFiles`) and the
changeset writer.  Pure functions of the TypeScript source become Lean
functions; the injected Git client, the JSON parser and the workspace
listing become explicit function arguments; JavaScript `undefined` becomes
`Option.none`, and JavaScript truthiness of an optional string (where the
empty string is falsy) is the `truthy` predicate below.

File paths are modelled as segment lists: `AbsolutePath` is a rooted path,
`RawPath` is either rooted or relative, `resolvePath` is `path.resolve`
restricted to paths without `.`/`..` components (the only paths the tool
produces), and `joinFile` is `path.join dir file`.  A string path
`a/b/package.json` corresponds to the segment list `["a", "b",
"package.json"]`; since `"package.json"` contains no separator,
`String.endsWith "package.json"` on the joined string agrees with
`String.endsWith "package.json"` on the last segment, which is how
`pathEndsWithManifest` renders the filter of
`getChangedPackageJsonFiles`.
-/

namespace Deps2Changesets

/-! ## Data model (src/types.ts) -/

/-- The dependency-scope names accepted by `--include-deps`
(`validDepTypes` in src/types.ts). -/
inductive DepType
  | prod
  | dev
  | peer
  | optional
deriving DecidableEq, Repr

/-- The four dependency-block keys of a package manifest. -/
inductive DepKey
  | dependencies
  | devDependencies
  | peerDependencies
  | optionalDependencies
deriving DecidableEq, Repr

/-- `DEP_TYPE_MAP` from src/dependency.ts: short dep type names to
package.json keys. -/
def DEP_TYPE_MAP : DepType → DepKey
  | .prod => .dependencies
  | .dev => .devDependencies
  | .peer => .peerDependencies
  | .optional => .optionalDependencies

/-- A dependency block: an insertion-ordered mapping from dependency name
to version-range string (a parsed JSON object). -/
abbrev DepBlock := List (String × String)

/-- `PackageJson` from src/types.ts.  A block that is `undefined` in the
JSON is the empty list, which behaves identically under `Object.keys` and
key lookup (the source reads blocks only through `... || {}`).  The
`private` field is `isPrivate` (`private` is reserved in Lean); JavaScript
leaves it `undefined` (falsy) when absent, so it collapses to `false`. -/
structure PackageJson where
  name : String
  version : String
  isPrivate : Bool := false
  dependencies : DepBlock := []
  devDependencies : DepBlock := []
  peerDependencies : DepBlock := []
  optionalDependencies : DepBlock := []
deriving DecidableEq, Repr

/-- `basePackageJson[depType] || {}`: read one dependency block. -/
def getDeps (p : PackageJson) : DepKey → DepBlock
  | .dependencies => p.dependencies
  | .devDependencies => p.devDependencies
  | .peerDependencies => p.peerDependencies
  | .optionalDependencies => p.optionalDependencies

/-- The three change kinds of `DependencyChange.type`. -/
inductive ChangeType
  | added
  | updated
  | removed
deriving DecidableEq, Repr

/-- `DependencyChange` from src/types.ts: `oldVersion` and `newVersion`
are optional fields, `none` when the source object omits them. -/
structure DependencyChange where
  name : String
  type : ChangeType
  oldVersion : Option String := none
  newVersion : Option String := none
deriving DecidableEq, Repr

/-- The kind/version-presence invariant of the spec's data model:
`added` carries `newVersion` only, `removed` carries `oldVersion` only,
`updated` carries both with distinct values. -/
def changeInvariant (c : DependencyChange) : Prop :=
  match c.type with
  | .added => c.oldVersion = none ∧ c.newVersion ≠ none
  | .removed => c.oldVersion ≠ none ∧ c.newVersion = none
  | .updated =>
      c.oldVersion ≠ none ∧ c.newVersion ≠ none ∧ c.oldVersion ≠ c.newVersion

instance (c : DependencyChange) : Decidable (changeInvariant c) := by
  unfold changeInvariant
  cases c.type <;> infer_instance

/-! ## JavaScript value helpers -/

/-- JavaScript truthiness of an optional string: `undefined` and `""` are
falsy, every other string is truthy. -/
def truthy : Option String → Bool
  | none => false
  | some s => s ≠ ""

/-- Insertion-order deduplication, the behaviour of `new Set([...])`
spread back into an array: the first occurrence of each element is kept,
in order. -/
def dedupKeepFirst {α : Type} [DecidableEq α] (l : List α) : List α :=
  l.foldl (fun acc x => if x ∈ acc then acc else acc ++ [x]) []

/-- The keys of a dependency block, `Object.keys`. -/
def blockKeys (deps : DepBlock) : List String := deps.map Prod.fst

/-! ## Manifest differ (comparePackageJsons, current scoped variant) -/

/-- The per-name classification inside `comparePackageJsons`: given
`oldVersion = baseDeps[name]` and `newVersion = headDeps[name]` (both
JavaScript-optional strings), emit the change the source's `if` chain
emits.  `oldVersion && newVersion && oldVersion !== newVersion` uses
JavaScript truthiness, so an empty-string version falls through to the
added/removed branches. -/
def diffDep (name : String) (oldVersion newVersion : Option String) :
    List DependencyChange :=
  if truthy oldVersion && truthy newVersion && oldVersion != newVersion then
    [{ name, type := .updated, oldVersion, newVersion }]
  else if !truthy oldVersion && truthy newVersion then
    [{ name, type := .added, newVersion }]
  else if truthy oldVersion && !truthy newVersion then
    [{ name, type := .removed, oldVersion }]
  else
    []

/-- The body of the per-scope loop of `comparePackageJsons`: union the
dependency names of the base and head blocks of one manifest key
(`new Set([...Object.keys(baseDeps), ...Object.keys(headDeps)])`) and
classify each name. -/
def scopeDiff (depType : DepKey) (basePackageJson headPackageJson : PackageJson) :
    List DependencyChange :=
  let baseDeps := getDeps basePackageJson depType
  let headDeps := getDeps headPackageJson depType
  let allDeps := dedupKeepFirst (blockKeys baseDeps ++ blockKeys headDeps)
  allDeps.flatMap fun name =>
    diffDep name (baseDeps.lookup name) (headDeps.lookup name)

/-- `DependencyChangeAnalyzer.comparePackageJsons`: map the analyzer's
`includedDepTypes` through `DEP_TYPE_MAP`, deduplicate (`new Set`), and
concatenate the per-scope diffs. -/
def comparePackageJsons (includedDepTypes : List DepType)
    (basePackageJson headPackageJson : PackageJson) : List DependencyChange :=
  let depTypes := dedupKeepFirst (includedDepTypes.map DEP_TYPE_MAP)
  depTypes.flatMap fun depType =>
    scopeDiff depType basePackageJson headPackageJson

/-- The default of the `--include-deps` flag
(`commandArgs.includeDeps.default = "prod"` in src/types.ts, passed to the
analyzer as `[commandArgs.includeDeps.default]`): production dependencies
only. -/
def defaultIncludedDepTypes : List DepType := [.prod]

/-! ## File paths and the workspace resolver -/

/-- A rooted file-system path as its list of segments: `/a/b` is
`⟨["a", "b"]⟩`. -/
structure AbsolutePath where
  segments : List String
deriving DecidableEq, Repr

/-- A path as handed to `findByFilePath`: either already rooted, or
relative to the working directory. -/
inductive RawPath
  | absolute (segments : List String)
  | relative (segments : List String)
deriving DecidableEq, Repr

/-- `path.resolve(cwd, filePath)` for paths without `.`/`..` components:
an absolute path stands, a relative one is appended to `cwd`. -/
def resolvePath (cwd : AbsolutePath) : RawPath → AbsolutePath
  | .absolute segments => ⟨segments⟩
  | .relative segments => ⟨cwd.segments ++ segments⟩

/-- `path.join(dir, fileName)` of a directory and a bare file name. -/
def joinFile (dir : AbsolutePath) (fileName : String) : AbsolutePath :=
  ⟨dir.segments ++ [fileName]⟩

/-- The last segment of a path, the part `String.endsWith` of a
separator-free suffix looks at. -/
def lastSegment : RawPath → Option String
  | .absolute segments => segments.getLast?
  | .relative segments => segments.getLast?

/-- `String.endsWith`, modelled as the suffix test on the underlying
character lists (`s.endsWith t` holds iff `t.data` is a suffix of
`s.data`). -/
def strEndsWith (s t : String) : Bool :=
  t.data.isSuffixOf s.data

/-- `String.startsWith`, modelled as the prefix test on the underlying
character lists. -/
def strStartsWith (s t : String) : Bool :=
  t.data.isPrefixOf s.data

/-- `file.path.endsWith("package.json")` on the segment model: the
manifest filename contains no separator, so the string suffix test is the
suffix test on the last segment. -/
def pathEndsWithManifest (p : RawPath) : Bool :=
  match lastSegment p with
  | some s => strEndsWith s "package.json"
  | none => false

/-- `Package` from `@manypkg/get-packages`, as the core uses it. -/
structure Package where
  dir : AbsolutePath
  relativeDir : String
  packageJson : PackageJson
deriving DecidableEq, Repr

/-- `WorkspacePackages.load`: `rootPackage ? [rootPackage, ...packages] :
packages`, over the result of the external `getPackages` call. -/
def loadWorkspace (rootPackage : Option Package) (packages : List Package) :
    List Package :=
  match rootPackage with
  | some root => root :: packages
  | none => packages

/-- `WorkspacePackages.findByFilePath` (current variant): resolve the
changed path to an absolute path against the workspace root and return the
first package whose directory joined with `package.json` equals it
exactly. -/
def findByFilePath (packages : List Package) (cwd : AbsolutePath)
    (filePath : RawPath) : Option Package :=
  let absoluteFilePath := resolvePath cwd filePath
  packages.find? fun p => joinFile p.dir "package.json" == absoluteFilePath

/-! ## Change detector -/

/-- One entry of `IGitClient.getChangedFiles`. -/
structure ChangedFile where
  path : RawPath
  status : String
deriving DecidableEq, Repr

/-- The filter of `getChangedPackageJsonFiles`: keep files whose path ends
with the manifest filename and whose Git status is `modified` or
`added`. -/
def filterManifestFiles (files : List ChangedFile) : List ChangedFile :=
  files.filter fun file =>
    pathEndsWithManifest file.path &&
      (file.status == "modified" || file.status == "added")

/-- `ChangedPackage` from src/types.ts, the discriminated union of a
private record (no changeset needed) and a public record carrying the
detected dependency changes. -/
inductive ChangedPackage
  | privateRecord (package : Package)
  | publicRecord (package : Package) (dependencyChanges : List DependencyChange)
deriving DecidableEq, Repr

/-- `DependencyChangeAnalyzer.analyzeDependencyChanges`: fetch the file
content at both refs through the injected Git client and parse both as
JSON; any of the four failures is caught by the surrounding `try`/`catch`
and yields no changes.  `getFileContent` and `parseJson` are the injected
collaborator and `JSON.parse`, with `none` standing for a thrown error. -/
def analyzeDependencyChanges (getFileContent : RawPath → String → Option String)
    (parseJson : String → Option PackageJson) (fromRef toRef : String)
    (includedDepTypes : List DepType) (filePath : RawPath) :
    List DependencyChange :=
  match getFileContent filePath fromRef, getFileContent filePath toRef with
  | some baseContent, some headContent =>
      match parseJson baseContent, parseJson headContent with
      | some basePackageJson, some headPackageJson =>
          comparePackageJsons includedDepTypes basePackageJson headPackageJson
      | _, _ => []
  | _, _ => []

/-- The body of the per-file loop of `detectChangedPackages`: resolve the
file to a workspace package (unmatched files are skipped), short-circuit
private packages before any diffing, and emit a public record only when
the analysis finds changes.  `analyze` is the analyzer's
`analyzeDependencyChanges` applied to everything but the file path. -/
def perFileRecords (workspacePackages : List Package) (cwd : AbsolutePath)
    (analyze : RawPath → List DependencyChange) (file : ChangedFile) :
    List ChangedPackage :=
  match findByFilePath workspacePackages cwd file.path with
  | none => []
  | some pkg =>
      if pkg.packageJson.isPrivate then
        [.privateRecord pkg]
      else
        match analyze file.path with
        | [] => []
        | dependencyChanges => [.publicRecord pkg dependencyChanges]

/-- `DependencyChangeAnalyzer.detectChangedPackages` with an explicit
per-file analysis function: filter the changed files, return early on an
empty list, otherwise load the workspace and walk the files.  The boolean
of the result records whether `WorkspacePackages.load` (the
workspace-package-listing collaborator) was invoked. -/
def detectChangedPackagesWith (files : List ChangedFile)
    (rootPackage : Option Package) (packages : List Package)
    (cwd : AbsolutePath) (analyze : RawPath → List DependencyChange) :
    List ChangedPackage × Bool :=
  let packageJsonFiles := filterManifestFiles files
  if packageJsonFiles.isEmpty then
    ([], false)
  else
    let workspacePackages := loadWorkspace rootPackage packages
    (packageJsonFiles.flatMap (perFileRecords workspacePackages cwd analyze),
      true)

/-- `DependencyChangeAnalyzer.detectChangedPackages`, the per-file
analysis instantiated with `analyzeDependencyChanges` over the analyzer's
client, refs and included dependency scopes. -/
def detectChangedPackages (getFileContent : RawPath → String → Option String)
    (parseJson : String → Option PackageJson) (fromRef toRef : String)
    (includedDepTypes : List DepType) (files : List ChangedFile)
    (rootPackage : Option Package) (packages : List Package)
    (cwd : AbsolutePath) : List ChangedPackage × Bool :=
  detectChangedPackagesWith files rootPackage packages cwd
    (analyzeDependencyChanges getFileContent parseJson fromRef toRef
      includedDepTypes)

/-! ## Changeset writer

The repository's tests for `createChangesets` (src/changeset.test.ts)
exercise a writer whose results carry an `id` field and whose summaries
combine the single-change line with kind-grouped bullets, but the
changeset module holding that writer is not among the source files; the
variants present return bare id strings and have no marker handling.  The
writer below is therefore modelled from the spec (§4.4 and §9). -/

/-- One release entry of a changeset record. -/
structure Release where
  name : String
  type : String
deriving DecidableEq, Repr

/-- `ChangesetRecord`: a persisted changeset as the writer reads it
back. -/
structure ChangesetRecord where
  id : String
  summary : String
  releases : List Release
deriving DecidableEq, Repr

/-- The writer's per-package result, `WrittenChangeset`. -/
structure WrittenChangeset where
  id : String
  wasRecreated : Bool
deriving DecidableEq, Repr

/-- Modelled from the spec: a changeset is "ours" iff its summary starts
with the fixed `AutoGeneratedMarker` banner (the marker string itself is a
parameter). -/
def isAutoGenerated (marker : String) (c : ChangesetRecord) : Bool :=
  strStartsWith c.summary marker

/-- Modelled from the spec: a persisted changeset is superseded by a new
write for `packageName` iff it carries the marker and its release list
names that package. -/
def staleForPackage (marker packageName : String) (c : ChangesetRecord) :
    Bool :=
  isAutoGenerated marker c && c.releases.any fun r => r.name == packageName

/-- Modelled from the spec: the Writer's per-record step, missing from the
source files.  Two visibly separate phases: (1) scan the existing records
for marker-and-package matches and collect their ids, (2) remove exactly
those ids, then persist the new record with a single release entry.
`wasRecreated` is true iff a stale record existed.  `freshId` is the
opaque id the external `writeChangeset` call generates. -/
def writeChangesetForPackage (marker freshId packageName summary bumpType :
    String) (store : List ChangesetRecord) :
    List ChangesetRecord × WrittenChangeset :=
  let staleIds :=
    (store.filter (staleForPackage marker packageName)).map ChangesetRecord.id
  let kept := store.filter fun c => !staleIds.contains c.id
  (kept ++ [{ id := freshId, summary, releases := [⟨packageName, bumpType⟩] }],
    { id := freshId, wasRecreated := !staleIds.isEmpty })

/-! ## Summary rendering

The current `generateSummaryFromChanges` lives in the same missing
changeset module; the variants present in the source files each show one
half of the specified rendering (the single-change line in one, the
kind-grouped bullets in the others).  The definition below is modelled
from the spec (§4.4 step 1), reusing the line format of the variants. -/

/-- `getNpmPackageUrl` from src/changeset.ts. -/
def getNpmPackageUrl (packageName : String) : String :=
  "https://www.npmjs.com/package/" ++ packageName

/-- JavaScript string interpolation of an optional value: `undefined`
prints as `"undefined"`. -/
def optStr : Option String → String
  | some s => s
  | none => "undefined"

/-- `generateSingleLineSummary` from src/changeset.ts: one descriptive
line for one change, linking the dependency to its npm page. -/
def generateSingleLineSummary (change : DependencyChange) : String :=
  let link :=
    "[" ++ change.name ++ "](" ++ getNpmPackageUrl change.name ++ ")"
  match change.type with
  | .updated =>
      "Updated " ++ link ++ " (" ++ optStr change.oldVersion ++ " -> " ++
        optStr change.newVersion ++ ")"
  | .added => "Added " ++ link ++ " (" ++ optStr change.newVersion ++ ")"
  | .removed => "Removed " ++ link ++ " (" ++ optStr change.oldVersion ++ ")"

/-- Modelled from the spec: `generateSummaryFromChanges` of the missing
current changeset module.  Zero changes render the generic fallback, a
single change renders one descriptive line without a heading, and
multiple changes render a heading followed by one bullet per change,
grouped as all updates, then all additions, then all removals. -/
def generateSummaryFromChanges (changes : List DependencyChange) : String :=
  match changes with
  | [] => "Updated dependencies"
  | [change] => generateSingleLineSummary change
  | _ =>
      let updates := changes.filter fun c => c.type == .updated
      let additions := changes.filter fun c => c.type == .added
      let removals := changes.filter fun c => c.type == .removed
      String.intercalate "\n"
        ("Dependencies updated\n" ::
          (updates ++ additions ++ removals).map fun c =>
            "- " ++ generateSingleLineSummary c)

/-! ## The mirrored change of a base/head swap -/

/-- The change the spec's discovery-symmetry property pairs with a given
change when base and head are swapped: `added` and `removed` trade places
with the version carried into the other field, and `updated` swaps its old
and new versions. -/
def mirrorChange (c : DependencyChange) : DependencyChange :=
  { name := c.name,
    type :=
      match c.type with
      | .added => .removed
      | .removed => .added
      | .updated => .updated,
    oldVersion := c.newVersion,
    newVersion := c.oldVersion }

/-! ## Helper lemmas -/

theorem mem_foldl_insertNew {α : Type} [DecidableEq α] (l acc : List α)
    (x : α) :
    x ∈ l.foldl (fun acc x => if x ∈ acc then acc else acc ++ [x]) acc ↔
      x ∈ acc ∨ x ∈ l := by
  induction l generalizing acc with
  | nil => simp
  | cons hd tl ih =>
    simp only [List.foldl_cons]
    by_cases h : hd ∈ acc
    · rw [if_pos h, ih]
      simp only [List.mem_cons]
      constructor
      · rintro (hx | hx)
        · exact Or.inl hx
        · exact Or.inr (Or.inr hx)
      · rintro (hx | hx | hx)
        · exact Or.inl hx
        · exact Or.inl (hx ▸ h)
        · exact Or.inr hx
    · rw [if_neg h, ih]
      simp only [List.mem_append, List.mem_cons, List.mem_singleton]
      tauto

theorem mem_dedupKeepFirst {α : Type} [DecidableEq α] (l : List α) (x : α) :
    x ∈ dedupKeepFirst l ↔ x ∈ l := by
  unfold dedupKeepFirst
  rw [mem_foldl_insertNew]
  simp

theorem lookup_mem_blockKeys (deps : DepBlock) (name v : String)
    (h : deps.lookup name = some v) : name ∈ blockKeys deps := by
  induction deps with
  | nil => simp [List.lookup] at h
  | cons hd tl ih =>
    rw [List.lookup] at h
    cases hbeq : (name == hd.1) with
    | true =>
      have heq : name = hd.1 := by simpa using hbeq
      simp [blockKeys, heq]
    | false =>
      simp only [hbeq] at h
      simpa [blockKeys] using Or.inr (ih h)

theorem flatMap_congr_mem {α β : Type} (l : List α) (f g : α → List β)
    (h : ∀ a ∈ l, f a = g a) : l.flatMap f = l.flatMap g := by
  induction l with
  | nil => rfl
  | cons hd tl ih =>
    simp only [List.flatMap_cons]
    rw [h hd (by simp), ih fun a ha => h a (by simp [ha])]

theorem name_of_mem_diffDep (name : String) (o n : Option String)
    (c : DependencyChange) (h : c ∈ diffDep name o n) : c.name = name := by
  unfold diffDep at h
  split_ifs at h <;> simp_all

theorem invariant_of_mem_diffDep (name : String) (o n : Option String)
    (c : DependencyChange) (h : c ∈ diffDep name o n) : changeInvariant c := by
  unfold diffDep at h
  split_ifs at h with h1 h2 h3
  · simp only [List.mem_singleton] at h
    subst h
    simp only [Bool.and_eq_true, bne_iff_ne] at h1
    obtain ⟨⟨ho, hn⟩, hne⟩ := h1
    cases o with
    | none => simp [truthy] at ho
    | some a =>
      cases n with
      | none => simp [truthy] at hn
      | some b => exact ⟨by simp, by simp, by simpa using hne⟩
  · simp only [List.mem_singleton] at h
    subst h
    simp only [Bool.and_eq_true, Bool.not_eq_true'] at h2
    obtain ⟨-, hn⟩ := h2
    cases n with
    | none => simp [truthy] at hn
    | some b => exact ⟨rfl, by simp⟩
  · simp only [List.mem_singleton] at h
    subst h
    simp only [Bool.and_eq_true, Bool.not_eq_true'] at h3
    obtain ⟨ho, -⟩ := h3
    cases o with
    | none => simp [truthy] at ho
    | some a => exact ⟨by simp, rfl⟩
  · simp at h

theorem diffDep_of_eq (name : String) (o : Option String) :
    diffDep name o o = [] := by
  unfold diffDep
  split_ifs with h1 h2 h3
  · simp at h1
  · simp at h2
  · simp at h3
  · rfl

theorem mem_scopeDiff (dt : DepKey) (b h : PackageJson)
    (c : DependencyChange) :
    c ∈ scopeDiff dt b h ↔
      ∃ name,
        (name ∈ blockKeys (getDeps b dt) ∨ name ∈ blockKeys (getDeps h dt)) ∧
        c ∈ diffDep name ((getDeps b dt).lookup name)
            ((getDeps h dt).lookup name) := by
  unfold scopeDiff
  simp only [List.mem_flatMap, mem_dedupKeepFirst, List.mem_append]

theorem mem_comparePackageJsons (scopes : List DepType) (b h : PackageJson)
    (c : DependencyChange) :
    c ∈ comparePackageJsons scopes b h ↔
      ∃ s ∈ scopes, c ∈ scopeDiff (DEP_TYPE_MAP s) b h := by
  unfold comparePackageJsons
  simp only [List.mem_flatMap, mem_dedupKeepFirst, List.mem_map]
  constructor
  · rintro ⟨dt, ⟨s, hs, rfl⟩, hc⟩
    exact ⟨s, hs, hc⟩
  · rintro ⟨s, hs, hc⟩
    exact ⟨DEP_TYPE_MAP s, ⟨s, hs, rfl⟩, hc⟩

theorem scopeDiff_updated_iff (dt : DepKey) (b h : PackageJson)
    (name o n : String) :
    (⟨name, .updated, some o, some n⟩ : DependencyChange) ∈
        scopeDiff dt b h ↔
      (getDeps b dt).lookup name = some o ∧
        (getDeps h dt).lookup name = some n ∧ o ≠ "" ∧ n ≠ "" ∧ o ≠ n := by
  rw [mem_scopeDiff]
  constructor
  · rintro ⟨nm, hnm, hd⟩
    have hname : nm = name := by
      simpa using (name_of_mem_diffDep nm _ _ _ hd).symm
    subst hname
    unfold diffDep at hd
    split_ifs at hd with h1 h2 h3
    · simp only [List.mem_singleton, DependencyChange.mk.injEq] at hd
      obtain ⟨-, -, ho, hn⟩ := hd
      simp only [Bool.and_eq_true, bne_iff_ne] at h1
      obtain ⟨⟨hto, htn⟩, hne⟩ := h1
      rw [← ho] at hto hne ⊢
      rw [← hn] at htn hne ⊢
      refine ⟨rfl, rfl, by simpa [truthy] using hto,
        by simpa [truthy] using htn, by simpa using hne⟩
    · simp [DependencyChange.mk.injEq] at hd
    · simp [DependencyChange.mk.injEq] at hd
    · simp at hd
  · rintro ⟨hb, hh, ho, hn, hne⟩
    refine ⟨name, Or.inl (lookup_mem_blockKeys _ _ _ hb), ?_⟩
    rw [hb, hh]
    unfold diffDep
    rw [if_pos (by simp [truthy, ho, hn, hne])]
    simp

theorem scopeDiff_added_iff (dt : DepKey) (b h : PackageJson)
    (name n : String) :
    (⟨name, .added, none, some n⟩ : DependencyChange) ∈ scopeDiff dt b h ↔
      truthy ((getDeps b dt).lookup name) = false ∧
        (getDeps h dt).lookup name = some n ∧ n ≠ "" := by
  rw [mem_scopeDiff]
  constructor
  · rintro ⟨nm, hnm, hd⟩
    have hname : nm = name := by
      simpa using (name_of_mem_diffDep nm _ _ _ hd).symm
    subst hname
    unfold diffDep at hd
    split_ifs at hd with h1 h2 h3
    · simp [DependencyChange.mk.injEq] at hd
    · simp only [List.mem_singleton, DependencyChange.mk.injEq] at hd
      obtain ⟨-, -, -, hn⟩ := hd
      simp only [Bool.and_eq_true, Bool.not_eq_true'] at h2
      obtain ⟨hto, htn⟩ := h2
      rw [← hn] at htn
      exact ⟨hto, hn.symm, by simpa [truthy] using htn⟩
    · simp [DependencyChange.mk.injEq] at hd
    · simp at hd
  · rintro ⟨hb, hh, hn⟩
    refine ⟨name, Or.inr (lookup_mem_blockKeys _ _ _ hh), ?_⟩
    rw [hh]
    unfold diffDep
    rw [if_neg (by rw [hb]; simp), if_pos (by rw [hb]; simp [truthy, hn])]
    simp

theorem scopeDiff_removed_iff (dt : DepKey) (b h : PackageJson)
    (name o : String) :
    (⟨name, .removed, some o, none⟩ : DependencyChange) ∈ scopeDiff dt b h ↔
      (getDeps b dt).lookup name = some o ∧ o ≠ "" ∧
        truthy ((getDeps h dt).lookup name) = false := by
  rw [mem_scopeDiff]
  constructor
  · rintro ⟨nm, hnm, hd⟩
    have hname : nm = name := by
      simpa using (name_of_mem_diffDep nm _ _ _ hd).symm
    subst hname
    unfold diffDep at hd
    split_ifs at hd with h1 h2 h3
    · simp [DependencyChange.mk.injEq] at hd
    · simp [DependencyChange.mk.injEq] at hd
    · simp only [List.mem_singleton, DependencyChange.mk.injEq] at hd
      obtain ⟨-, -, ho, -⟩ := hd
      simp only [Bool.and_eq_true, Bool.not_eq_true'] at h3
      obtain ⟨hto, htn⟩ := h3
      rw [← ho] at hto
      exact ⟨ho.symm, by simpa [truthy] using hto, htn⟩
    · simp at hd
  · rintro ⟨hb, ho, hh⟩
    refine ⟨name, Or.inl (lookup_mem_blockKeys _ _ _ hb), ?_⟩
    rw [hb]
    unfold diffDep
    rw [if_neg (by rw [hh]; simp), if_neg (by rw [hh]; simp),
      if_pos (by rw [hh]; simp [truthy, ho])]
    simp

theorem scopeDiff_no_change (dt : DepKey) (b h : PackageJson) (name : String)
    (heq : (getDeps b dt).lookup name = (getDeps h dt).lookup name) :
    ∀ c ∈ scopeDiff dt b h, c.name ≠ name := by
  intro c hc hcname
  obtain ⟨nm, -, hd⟩ := (mem_scopeDiff dt b h c).mp hc
  have : nm = name := (name_of_mem_diffDep nm _ _ _ hd).symm.trans hcname
  subst this
  rw [heq, diffDep_of_eq] at hd
  simp at hd

theorem mirrorChange_involutive (c : DependencyChange) :
    mirrorChange (mirrorChange c) = c := by
  rcases c with ⟨name, ty, o, n⟩
  cases ty <;> rfl

theorem diffDep_swap (name : String) (o n : Option String) :
    diffDep name n o = (diffDep name o n).map mirrorChange := by
  rcases o with _ | a <;> rcases n with _ | b
  · rfl
  · by_cases hb : b = "" <;> simp [diffDep, truthy, hb, mirrorChange]
  · by_cases ha : a = "" <;> simp [diffDep, truthy, ha, mirrorChange]
  · by_cases ha : a = "" <;> by_cases hb : b = "" <;> by_cases hab : a = b <;>
      simp [diffDep, truthy, ha, hb, hab, mirrorChange, Ne.symm,
        ne_comm]

theorem mem_scopeDiff_swap (dt : DepKey) (b h : PackageJson)
    (c : DependencyChange) :
    c ∈ scopeDiff dt h b ↔ mirrorChange c ∈ scopeDiff dt b h := by
  rw [mem_scopeDiff, mem_scopeDiff]
  apply exists_congr
  intro name
  apply and_congr
  · exact or_comm
  · rw [diffDep_swap, List.mem_map]
    constructor
    · rintro ⟨d, hd, rfl⟩
      rw [mirrorChange_involutive]
      exact hd
    · intro hd
      exact ⟨mirrorChange c, hd, mirrorChange_involutive c⟩

theorem detect_records_eq (files : List ChangedFile)
    (rootPackage : Option Package) (packages : List Package)
    (cwd : AbsolutePath) (analyze : RawPath → List DependencyChange) :
    (detectChangedPackagesWith files rootPackage packages cwd analyze).1 =
      (filterManifestFiles files).flatMap
        (perFileRecords (loadWorkspace rootPackage packages) cwd analyze) := by
  unfold detectChangedPackagesWith
  by_cases hE : (filterManifestFiles files).isEmpty
  · rw [List.isEmpty_iff] at hE
    simp [hE]
  · simp [hE]

theorem filterManifestFiles_append (l1 l2 : List ChangedFile) :
    filterManifestFiles (l1 ++ l2) =
      filterManifestFiles l1 ++ filterManifestFiles l2 := by
  unfold filterManifestFiles
  simp

theorem perFileRecords_unmatched (workspacePackages : List Package)
    (cwd : AbsolutePath) (analyze : RawPath → List DependencyChange)
    (file : ChangedFile)
    (h : findByFilePath workspacePackages cwd file.path = none) :
    perFileRecords workspacePackages cwd analyze file = [] := by
  unfold perFileRecords
  rw [h]

theorem detect_records_split (fs1 fs2 : List ChangedFile) (f : ChangedFile)
    (rootPackage : Option Package) (packages : List Package)
    (cwd : AbsolutePath) (analyze : RawPath → List DependencyChange) :
    (detectChangedPackagesWith (fs1 ++ f :: fs2) rootPackage packages cwd
        analyze).1 =
      (detectChangedPackagesWith fs1 rootPackage packages cwd analyze).1 ++
        (filterManifestFiles [f]).flatMap
          (perFileRecords (loadWorkspace rootPackage packages) cwd analyze) ++
        (detectChangedPackagesWith fs2 rootPackage packages cwd analyze).1 := by
  rw [detect_records_eq, detect_records_eq, detect_records_eq,
    show fs1 ++ f :: fs2 = fs1 ++ [f] ++ fs2 by simp,
    filterManifestFiles_append, filterManifestFiles_append]
  simp

/-! ## Claim theorems -/

/-- **C3.** For every pair of manifest snapshots and every selected scope,
the diff considers exactly the union of dependency names present in the
base or head block of that scope, and for each such name emits `updated`
with both versions iff the name has differing usable versions in both
blocks, `added` with only the new version iff it is absent in base and
usable in head, `removed` with only the old version iff it is usable in
base and absent in head, and nothing when the values agree or the name is
absent from both; every emitted change satisfies the
kind/version-presence invariant.  "Present" is the source's JavaScript
truthiness test: a name counts as present in a block when the block maps
it to a non-empty version string (the diff treats an empty version string
as absence, cf. the C10 theorem). -/
theorem c3_comparePackageJsons_characterization (scopes : List DepType)
    (b h : PackageJson) :
    (∀ c ∈ comparePackageJsons scopes b h, changeInvariant c) ∧
    (∀ c ∈ comparePackageJsons scopes b h, ∃ s ∈ scopes,
        c.name ∈ blockKeys (getDeps b (DEP_TYPE_MAP s)) ∨
          c.name ∈ blockKeys (getDeps h (DEP_TYPE_MAP s))) ∧
    (∀ c, c ∈ comparePackageJsons scopes b h ↔
        ∃ s ∈ scopes, c ∈ scopeDiff (DEP_TYPE_MAP s) b h) ∧
    (∀ s ∈ scopes, ∀ name : String,
      (∀ o n, (⟨name, .updated, some o, some n⟩ : DependencyChange) ∈
            scopeDiff (DEP_TYPE_MAP s) b h ↔
          (getDeps b (DEP_TYPE_MAP s)).lookup name = some o ∧
            (getDeps h (DEP_TYPE_MAP s)).lookup name = some n ∧
            o ≠ "" ∧ n ≠ "" ∧ o ≠ n) ∧
      (∀ n, (⟨name, .added, none, some n⟩ : DependencyChange) ∈
            scopeDiff (DEP_TYPE_MAP s) b h ↔
          truthy ((getDeps b (DEP_TYPE_MAP s)).lookup name) = false ∧
            (getDeps h (DEP_TYPE_MAP s)).lookup name = some n ∧ n ≠ "") ∧
      (∀ o, (⟨name, .removed, some o, none⟩ : DependencyChange) ∈
            scopeDiff (DEP_TYPE_MAP s) b h ↔
          (getDeps b (DEP_TYPE_MAP s)).lookup name = some o ∧ o ≠ "" ∧
            truthy ((getDeps h (DEP_TYPE_MAP s)).lookup name) = false) ∧
      ((getDeps b (DEP_TYPE_MAP s)).lookup name =
          (getDeps h (DEP_TYPE_MAP s)).lookup name →
        ∀ c ∈ scopeDiff (DEP_TYPE_MAP s) b h, c.name ≠ name)) := by
  refine ⟨?_, ?_, fun c => mem_comparePackageJsons scopes b h c, ?_⟩
  · intro c hc
    obtain ⟨s, hs, hsd⟩ := (mem_comparePackageJsons _ _ _ c).mp hc
    obtain ⟨nm, -, hd⟩ := (mem_scopeDiff _ _ _ c).mp hsd
    exact invariant_of_mem_diffDep _ _ _ _ hd
  · intro c hc
    obtain ⟨s, hs, hsd⟩ := (mem_comparePackageJsons _ _ _ c).mp hc
    obtain ⟨nm, hnm, hd⟩ := (mem_scopeDiff _ _ _ c).mp hsd
    have hname := name_of_mem_diffDep _ _ _ _ hd
    exact ⟨s, hs, hname ▸ hnm⟩
  · intro s hs name
    exact ⟨fun o n => scopeDiff_updated_iff (DEP_TYPE_MAP s) b h name o n,
      fun n => scopeDiff_added_iff (DEP_TYPE_MAP s) b h name n,
      fun o => scopeDiff_removed_iff (DEP_TYPE_MAP s) b h name o,
      fun heq => scopeDiff_no_change (DEP_TYPE_MAP s) b h name heq⟩

/-- Witness for C3: scenario A of the spec, a version bump of `lodash`
emits exactly the corresponding `updated` change. -/
theorem c3_comparePackageJsons_characterization_witness :
    (⟨"lodash", ChangeType.updated, some "^4.17.19", some "^4.17.21"⟩ :
        DependencyChange) ∈
      scopeDiff (DEP_TYPE_MAP DepType.prod)
        ⟨"p", "1.0.0", false, [("lodash", "^4.17.19")], [], [], []⟩
        ⟨"p", "1.0.0", false, [("lodash", "^4.17.21")], [], [], []⟩ :=
  (((c3_comparePackageJsons_characterization [DepType.prod]
        ⟨"p", "1.0.0", false, [("lodash", "^4.17.19")], [], [], []⟩
        ⟨"p", "1.0.0", false, [("lodash", "^4.17.21")], [], [], []⟩).2.2.2
      DepType.prod (by decide) "lodash").1 "^4.17.19" "^4.17.21").mpr
    (by decide)

/-- **C8.** For every pair of manifest snapshots and every scope set,
diffing with base and head swapped produces, dependency for dependency,
the mirrored change: `added` becomes `removed` and vice versa with the
version carried into the other field, and `updated` stays `updated` with
old and new swapped. -/
theorem c8_diff_symmetry (scopes : List DepType) (b h : PackageJson)
    (c : DependencyChange) :
    c ∈ comparePackageJsons scopes h b ↔
      mirrorChange c ∈ comparePackageJsons scopes b h := by
  rw [mem_comparePackageJsons, mem_comparePackageJsons]
  exact exists_congr fun s =>
    and_congr_right fun _ => mem_scopeDiff_swap (DEP_TYPE_MAP s) b h c

/-- Witness for C8: swapping the manifests of scenario B turns the
`added` change for `axios` into the mirrored `removed` change. -/
theorem c8_diff_symmetry_witness :
    (⟨"axios", ChangeType.removed, some "^1.4.0", none⟩ :
        DependencyChange) ∈
      comparePackageJsons [DepType.prod]
        ⟨"p", "1.0.0", false, [("axios", "^1.4.0")], [], [], []⟩
        ⟨"p", "1.0.0", false, [], [], [], []⟩ :=
  (c8_diff_symmetry [DepType.prod]
      ⟨"p", "1.0.0", false, [], [], [], []⟩
      ⟨"p", "1.0.0", false, [("axios", "^1.4.0")], [], [], []⟩
      ⟨"axios", ChangeType.removed, some "^1.4.0", none⟩).mpr (by decide)

/-- **C10.** For every pair of manifest snapshots, a dependency whose
version range string is the empty string is treated as absent by the
diff: an empty base value with a non-empty head value emits `added` (new
version only) rather than `updated`; a non-empty base value with an empty
head value emits `removed` (old version only) rather than `updated`; and
an empty value on both sides emits nothing for that name. -/
theorem c10_empty_version_is_absent (scopes : List DepType) (s : DepType)
    (b h : PackageJson) (name : String) (hs : s ∈ scopes) :
    (∀ v, (getDeps b (DEP_TYPE_MAP s)).lookup name = some "" →
        (getDeps h (DEP_TYPE_MAP s)).lookup name = some v → v ≠ "" →
        (⟨name, .added, none, some v⟩ : DependencyChange) ∈
            comparePackageJsons scopes b h ∧
          ∀ c ∈ scopeDiff (DEP_TYPE_MAP s) b h, c.name = name →
            c = ⟨name, .added, none, some v⟩) ∧
    (∀ o, (getDeps b (DEP_TYPE_MAP s)).lookup name = some o → o ≠ "" →
        (getDeps h (DEP_TYPE_MAP s)).lookup name = some "" →
        (⟨name, .removed, some o, none⟩ : DependencyChange) ∈
            comparePackageJsons scopes b h ∧
          ∀ c ∈ scopeDiff (DEP_TYPE_MAP s) b h, c.name = name →
            c = ⟨name, .removed, some o, none⟩) ∧
    ((getDeps b (DEP_TYPE_MAP s)).lookup name = some "" →
        (getDeps h (DEP_TYPE_MAP s)).lookup name = some "" →
        ∀ c ∈ scopeDiff (DEP_TYPE_MAP s) b h, c.name ≠ name) := by
  refine ⟨?_, ?_, ?_⟩
  · intro v hb hh hv
    constructor
    · exact (mem_comparePackageJsons _ _ _ _).mpr ⟨s, hs,
        (scopeDiff_added_iff _ _ _ _ _).mpr
          ⟨by rw [hb]; simp [truthy], hh, hv⟩⟩
    · intro c hc hcname
      obtain ⟨nm, -, hd⟩ := (mem_scopeDiff _ _ _ c).mp hc
      have : nm = name := (name_of_mem_diffDep _ _ _ _ hd).symm.trans hcname
      subst this
      rw [hb, hh] at hd
      unfold diffDep at hd
      rw [if_neg (by simp [truthy]), if_pos (by simp [truthy, hv])] at hd
      simpa using hd
  · intro o hb ho hh
    constructor
    · exact (mem_comparePackageJsons _ _ _ _).mpr ⟨s, hs,
        (scopeDiff_removed_iff _ _ _ _ _).mpr
          ⟨hb, ho, by rw [hh]; simp [truthy]⟩⟩
    · intro c hc hcname
      obtain ⟨nm, -, hd⟩ := (mem_scopeDiff _ _ _ c).mp hc
      have : nm = name := (name_of_mem_diffDep _ _ _ _ hd).symm.trans hcname
      subst this
      rw [hb, hh] at hd
      unfold diffDep at hd
      rw [if_neg (by simp [truthy]), if_neg (by simp [truthy]),
        if_pos (by simp [truthy, ho])] at hd
      simpa using hd
  · intro hb hh
    exact scopeDiff_no_change _ _ _ _ (hb.trans hh.symm)

/-- Witness for C10: with base value `""` and head value `^1.0.0` for
`left-pad`, the diff emits the `added` change. -/
theorem c10_empty_version_is_absent_witness :
    (⟨"left-pad", ChangeType.added, none, some "^1.0.0"⟩ :
        DependencyChange) ∈
      comparePackageJsons [DepType.prod]
        ⟨"p", "1.0.0", false, [("left-pad", "")], [], [], []⟩
        ⟨"p", "1.0.0", false, [("left-pad", "^1.0.0")], [], [], []⟩ :=
  ((c10_empty_version_is_absent [DepType.prod] DepType.prod
        ⟨"p", "1.0.0", false, [("left-pad", "")], [], [], []⟩
        ⟨"p", "1.0.0", false, [("left-pad", "^1.0.0")], [], [], []⟩
        "left-pad" (by decide)).1 "^1.0.0" (by decide) (by decide)
      (by decide)).1

/-- **C1.** For every pair of manifest snapshots, diffing inspects only
the dependency blocks of the selected scopes (manifests agreeing on those
blocks diff identically), the scope selection defaults to production
dependencies only, and in particular a manifest pair whose only
difference is a `devDependencies` entry changed from `^1.0.0` to `^2.0.0`
diffs to zero changes under the scope set `{prod}`. -/
theorem c1_scope_selection :
    (∀ (scopes : List DepType) (b b' h h' : PackageJson),
        (∀ s ∈ scopes,
          getDeps b (DEP_TYPE_MAP s) = getDeps b' (DEP_TYPE_MAP s) ∧
            getDeps h (DEP_TYPE_MAP s) = getDeps h' (DEP_TYPE_MAP s)) →
        comparePackageJsons scopes b h = comparePackageJsons scopes b' h') ∧
    defaultIncludedDepTypes = [DepType.prod] ∧
    comparePackageJsons [DepType.prod]
        ⟨"p", "1.0.0", false, [("lodash", "^4.17.21")],
          [("vitest", "^1.0.0")], [], []⟩
        ⟨"p", "1.0.0", false, [("lodash", "^4.17.21")],
          [("vitest", "^2.0.0")], [], []⟩ = [] := by
  refine ⟨?_, rfl, by decide⟩
  intro scopes b b' h h' hagree
  unfold comparePackageJsons
  apply flatMap_congr_mem
  intro dt hdt
  rw [mem_dedupKeepFirst] at hdt
  obtain ⟨s, hs, rfl⟩ := List.mem_map.mp hdt
  obtain ⟨hb, hh⟩ := hagree s hs
  unfold scopeDiff
  rw [hb, hh]

/-- Witness for C1: two manifest pairs agreeing on the production block
but with different dev blocks diff identically under `{prod}`. -/
theorem c1_scope_selection_witness :
    comparePackageJsons [DepType.prod]
        ⟨"p", "1.0.0", false, [("lodash", "^4.17.19")],
          [("vitest", "^1.0.0")], [], []⟩
        ⟨"p", "1.0.0", false, [("lodash", "^4.17.21")],
          [("vitest", "^2.0.0")], [], []⟩ =
      comparePackageJsons [DepType.prod]
        ⟨"p", "1.0.0", false, [("lodash", "^4.17.19")], [], [], []⟩
        ⟨"p", "1.0.0", false, [("lodash", "^4.17.21")], [], [], []⟩ :=
  c1_scope_selection.1 [DepType.prod]
    ⟨"p", "1.0.0", false, [("lodash", "^4.17.19")],
      [("vitest", "^1.0.0")], [], []⟩
    ⟨"p", "1.0.0", false, [("lodash", "^4.17.19")], [], [], []⟩
    ⟨"p", "1.0.0", false, [("lodash", "^4.17.21")],
      [("vitest", "^2.0.0")], [], []⟩
    ⟨"p", "1.0.0", false, [("lodash", "^4.17.21")], [], [], []⟩
    (by decide)

/-- **C5.** For every changed-file path and every workspace package set,
the resolver matches a package iff the package's directory joined with
the manifest filename equals the changed path resolved to an absolute
path against the workspace root — no partial or suffix matching — and a
path matching no package contributes nothing to the detection run
without failing it. -/
theorem c5_findByFilePath_exact_match (packages : List Package)
    (cwd : AbsolutePath) (filePath : RawPath) :
    (∀ p, findByFilePath packages cwd filePath = some p →
        p ∈ packages ∧
          joinFile p.dir "package.json" = resolvePath cwd filePath) ∧
    (findByFilePath packages cwd filePath = none ↔
        ∀ p ∈ packages,
          joinFile p.dir "package.json" ≠ resolvePath cwd filePath) ∧
    ((∃ p ∈ packages,
          joinFile p.dir "package.json" = resolvePath cwd filePath) →
        ∃ p, findByFilePath packages cwd filePath = some p ∧
          joinFile p.dir "package.json" = resolvePath cwd filePath) ∧
    (∀ (rootPackage : Option Package) (ws : List Package)
        (analyze : RawPath → List DependencyChange)
        (fs1 fs2 : List ChangedFile) (f : ChangedFile),
        findByFilePath (loadWorkspace rootPackage ws) cwd f.path = none →
        (detectChangedPackagesWith (fs1 ++ f :: fs2) rootPackage ws cwd
            analyze).1 =
          (detectChangedPackagesWith (fs1 ++ fs2) rootPackage ws cwd
            analyze).1) := by
  have hsound : ∀ p, findByFilePath packages cwd filePath = some p →
      p ∈ packages ∧
        joinFile p.dir "package.json" = resolvePath cwd filePath := by
    intro p hp
    unfold findByFilePath at hp
    have hp' : List.find?
        (fun q => joinFile q.dir "package.json" == resolvePath cwd filePath)
        packages = some p := hp
    have h2 : (joinFile p.dir "package.json" ==
        resolvePath cwd filePath) = true :=
      @List.find?_some Package
        (fun q => joinFile q.dir "package.json" == resolvePath cwd filePath)
        p packages hp'
    exact ⟨List.mem_of_find?_eq_some hp', eq_of_beq h2⟩
  have hnone : findByFilePath packages cwd filePath = none ↔
      ∀ p ∈ packages,
        joinFile p.dir "package.json" ≠ resolvePath cwd filePath := by
    unfold findByFilePath
    rw [List.find?_eq_none]
    simp
  refine ⟨hsound, hnone, ?_, ?_⟩
  · rintro ⟨p, hp, heq⟩
    cases hfind : findByFilePath packages cwd filePath with
    | none => exact absurd heq (hnone.mp hfind p hp)
    | some q => exact ⟨q, rfl, (hsound q hfind).2⟩
  · intro rootPackage ws analyze fs1 fs2 f hun
    have hf : (filterManifestFiles [f]).flatMap
        (perFileRecords (loadWorkspace rootPackage ws) cwd analyze) = [] := by
      unfold filterManifestFiles
      by_cases hp : (pathEndsWithManifest f.path &&
          (f.status == "modified" || f.status == "added")) = true
      · simp [hp, perFileRecords_unmatched _ _ _ _ hun]
      · simp [hp]
    rw [detect_records_split]
    simp only [hf, detect_records_eq, filterManifestFiles_append,
      List.flatMap_append, List.append_nil, List.append_assoc]

/-- Witness for C5: a changed path resolving outside every package
directory leaves the detection records unchanged. -/
theorem c5_findByFilePath_exact_match_witness :
    (detectChangedPackagesWith
        [⟨RawPath.relative ["docs", "package.json"], "modified"⟩]
        (some ⟨⟨["repo"]⟩, ".", ⟨"root", "1.0.0", false, [], [], [], []⟩⟩)
        [] ⟨["repo"]⟩ (fun _ => [])).1 =
      (detectChangedPackagesWith ([] ++ [])
        (some ⟨⟨["repo"]⟩, ".", ⟨"root", "1.0.0", false, [], [], [], []⟩⟩)
        [] ⟨["repo"]⟩ (fun _ => [])).1 :=
  (c5_findByFilePath_exact_match
      [⟨⟨["repo"]⟩, ".", ⟨"root", "1.0.0", false, [], [], [], []⟩⟩]
      ⟨["repo"]⟩ (RawPath.relative ["docs", "package.json"])).2.2.2
    (some ⟨⟨["repo"]⟩, ".", ⟨"root", "1.0.0", false, [], [], [], []⟩⟩)
    [] (fun _ => []) [] []
    ⟨RawPath.relative ["docs", "package.json"], "modified"⟩ (by decide)

/-- **C9.** For every detection run, only changed files whose path ends
with the manifest filename and whose Git status is `modified` or `added`
are considered (deleted manifests are ignored): membership in the
filtered list is exactly that predicate, the detection result depends
only on the filtered list, and when the filtered list is empty the
detector returns the empty record list with the workspace-loading
collaborator never invoked (the boolean of the result). -/
theorem c9_manifest_filter_short_circuit (files : List ChangedFile)
    (rootPackage : Option Package) (packages : List Package)
    (cwd : AbsolutePath) (analyze : RawPath → List DependencyChange) :
    (∀ f, f ∈ filterManifestFiles files ↔
        f ∈ files ∧ pathEndsWithManifest f.path = true ∧
          (f.status = "modified" ∨ f.status = "added")) ∧
    (filterManifestFiles files = [] →
        detectChangedPackagesWith files rootPackage packages cwd analyze =
          ([], false)) ∧
    (∀ files', filterManifestFiles files = filterManifestFiles files' →
        detectChangedPackagesWith files rootPackage packages cwd analyze =
          detectChangedPackagesWith files' rootPackage packages cwd
            analyze) := by
  refine ⟨?_, ?_, ?_⟩
  · intro f
    unfold filterManifestFiles
    rw [List.mem_filter]
    simp [and_assoc]
  · intro hE
    unfold detectChangedPackagesWith
    rw [hE]
    rfl
  · intro files' hEq
    unfold detectChangedPackagesWith
    rw [hEq]

/-- Witness for C9, scenario E of the spec: a changed-file list with no
package.json entries yields the empty record list without loading the
workspace. -/
theorem c9_manifest_filter_short_circuit_witness :
    detectChangedPackagesWith
        [⟨RawPath.relative ["README.md"], "modified"⟩,
          ⟨RawPath.relative ["pkg", "package.json"], "deleted"⟩]
        (some ⟨⟨["repo"]⟩, ".", ⟨"root", "1.0.0", false, [], [], [], []⟩⟩)
        [] ⟨["repo"]⟩ (fun _ => []) = ([], false) :=
  (c9_manifest_filter_short_circuit
      [⟨RawPath.relative ["README.md"], "modified"⟩,
        ⟨RawPath.relative ["pkg", "package.json"], "deleted"⟩]
      (some ⟨⟨["repo"]⟩, ".", ⟨"root", "1.0.0", false, [], [], [], []⟩⟩)
      [] ⟨["repo"]⟩ (fun _ => [])).2.1 (by decide)

/-- **C6.** For every detection run, a workspace package whose manifest
is flagged private short-circuits before any dependency diffing (the
result is unchanged under any modification of the analysis at files of
private packages, and its per-file step yields the private record without
consulting the analysis), and such a package never appears in the result
as a public record with dependency changes. -/
theorem c6_private_never_public (files : List ChangedFile)
    (rootPackage : Option Package) (packages : List Package)
    (cwd : AbsolutePath) :
    (∀ (analyze : RawPath → List DependencyChange) (pkg : Package)
        (cs : List DependencyChange),
        ChangedPackage.publicRecord pkg cs ∈
          (detectChangedPackagesWith files rootPackage packages cwd
            analyze).1 →
        pkg.packageJson.isPrivate = false) ∧
    (∀ analyze analyze',
        (∀ f ∈ filterManifestFiles files, ∀ pkg,
          findByFilePath (loadWorkspace rootPackage packages) cwd f.path =
              some pkg →
          pkg.packageJson.isPrivate = false →
          analyze f.path = analyze' f.path) →
        detectChangedPackagesWith files rootPackage packages cwd analyze =
          detectChangedPackagesWith files rootPackage packages cwd
            analyze') ∧
    (∀ (analyze : RawPath → List DependencyChange) (f : ChangedFile)
        (pkg : Package),
        findByFilePath (loadWorkspace rootPackage packages) cwd f.path =
            some pkg →
        pkg.packageJson.isPrivate = true →
        perFileRecords (loadWorkspace rootPackage packages) cwd analyze f =
          [.privateRecord pkg]) := by
  refine ⟨?_, ?_, ?_⟩
  · intro analyze pkg cs hmem
    rw [detect_records_eq, List.mem_flatMap] at hmem
    obtain ⟨f, hf, hrec⟩ := hmem
    unfold perFileRecords at hrec
    cases hfind : findByFilePath (loadWorkspace rootPackage packages) cwd
        f.path with
    | none =>
      rw [hfind] at hrec
      simp at hrec
    | some pkg' =>
      rw [hfind] at hrec
      dsimp only at hrec
      by_cases hpriv : pkg'.packageJson.isPrivate
      · rw [if_pos hpriv] at hrec
        simp at hrec
      · rw [if_neg hpriv] at hrec
        cases hana : analyze f.path with
        | nil =>
          rw [hana] at hrec
          simp at hrec
        | cons c0 cs0 =>
          rw [hana] at hrec
          simp only [List.mem_singleton, ChangedPackage.publicRecord.injEq]
            at hrec
          rw [hrec.1]
          simpa using hpriv
  · intro analyze analyze' hag
    unfold detectChangedPackagesWith
    by_cases hE : (filterManifestFiles files).isEmpty
    · simp [hE]
    · simp only [hE, Bool.false_eq_true, if_false]
      have : (filterManifestFiles files).flatMap
          (perFileRecords (loadWorkspace rootPackage packages) cwd analyze) =
            (filterManifestFiles files).flatMap
          (perFileRecords (loadWorkspace rootPackage packages) cwd
            analyze') := by
        apply flatMap_congr_mem
        intro f hf
        unfold perFileRecords
        cases hfind : findByFilePath (loadWorkspace rootPackage packages)
            cwd f.path with
        | none => rfl
        | some pkg =>
          dsimp only
          by_cases hpriv : pkg.packageJson.isPrivate
          · rw [if_pos hpriv, if_pos hpriv]
          · rw [if_neg hpriv, if_neg hpriv,
              hag f hf pkg hfind (by simpa using hpriv)]
      rw [this]
  · intro analyze f pkg hfind hpriv
    unfold perFileRecords
    rw [hfind]
    dsimp only
    rw [if_pos hpriv]

/-- Witness for C6: a private package's changed manifest yields exactly
its private record, with an analysis function that would report a change
if it were consulted. -/
theorem c6_private_never_public_witness :
    perFileRecords
        [⟨⟨["repo", "pkg"]⟩, "pkg", ⟨"secret", "1.0.0", true, [], [], [], []⟩⟩]
        ⟨["repo"]⟩
        (fun _ => [⟨"lodash", ChangeType.added, none, some "^1.0.0"⟩])
        ⟨RawPath.relative ["pkg", "package.json"], "modified"⟩ =
      [ChangedPackage.privateRecord
        ⟨⟨["repo", "pkg"]⟩, "pkg", ⟨"secret", "1.0.0", true, [], [], [], []⟩⟩] :=
  (c6_private_never_public []
      (some ⟨⟨["repo", "pkg"]⟩, "pkg",
        ⟨"secret", "1.0.0", true, [], [], [], []⟩⟩)
      [] ⟨["repo"]⟩).2.2
    (fun _ => [⟨"lodash", ChangeType.added, none, some "^1.0.0"⟩])
    ⟨RawPath.relative ["pkg", "package.json"], "modified"⟩
    ⟨⟨["repo", "pkg"]⟩, "pkg", ⟨"secret", "1.0.0", true, [], [], [], []⟩⟩
    (by decide) (by decide)

/-- **C7.** For every detection run and every considered manifest file,
if fetching the file's content at either ref or parsing either content as
JSON fails, the failure is caught: the file's analysis yields zero
dependency changes, the run decomposes around the file and continues over
the remaining files, and the file contributes no public record. -/
theorem c7_fetch_parse_failure_recovered
    (getFileContent : RawPath → String → Option String)
    (parseJson : String → Option PackageJson) (fromRef toRef : String)
    (includedDepTypes : List DepType) (rootPackage : Option Package)
    (packages : List Package) (cwd : AbsolutePath)
    (fs1 fs2 : List ChangedFile) (f : ChangedFile)
    (hfail : getFileContent f.path fromRef = none ∨
        getFileContent f.path toRef = none ∨
        (∃ bc, getFileContent f.path fromRef = some bc ∧
          parseJson bc = none) ∨
        (∃ hc, getFileContent f.path toRef = some hc ∧
          parseJson hc = none)) :
    analyzeDependencyChanges getFileContent parseJson fromRef toRef
        includedDepTypes f.path = [] ∧
    (detectChangedPackages getFileContent parseJson fromRef toRef
        includedDepTypes (fs1 ++ f :: fs2) rootPackage packages cwd).1 =
      (detectChangedPackages getFileContent parseJson fromRef toRef
          includedDepTypes fs1 rootPackage packages cwd).1 ++
        (filterManifestFiles [f]).flatMap
          (perFileRecords (loadWorkspace rootPackage packages) cwd
            (analyzeDependencyChanges getFileContent parseJson fromRef toRef
              includedDepTypes)) ++
        (detectChangedPackages getFileContent parseJson fromRef toRef
          includedDepTypes fs2 rootPackage packages cwd).1 ∧
    (∀ (pkg : Package) (cs : List DependencyChange),
        ChangedPackage.publicRecord pkg cs ∉
          (filterManifestFiles [f]).flatMap
            (perFileRecords (loadWorkspace rootPackage packages) cwd
              (analyzeDependencyChanges getFileContent parseJson fromRef
                toRef includedDepTypes))) := by
  have hana : analyzeDependencyChanges getFileContent parseJson fromRef toRef
      includedDepTypes f.path = [] := by
    unfold analyzeDependencyChanges
    cases hb : getFileContent f.path fromRef with
    | none =>
      cases hh : getFileContent f.path toRef with
      | none => rfl
      | some hc => rfl
    | some bc =>
      cases hh : getFileContent f.path toRef with
      | none => rfl
      | some hc =>
        dsimp only
        rcases hfail with hx | hx | ⟨bc', h1, h2⟩ | ⟨hc', h1, h2⟩
        · rw [hb] at hx
          exact absurd hx (by simp)
        · rw [hh] at hx
          exact absurd hx (by simp)
        · rw [hb] at h1
          obtain rfl : bc = bc' := by simpa using h1
          rw [h2]
        · rw [hh] at h1
          obtain rfl : hc = hc' := by simpa using h1
          rw [h2]
          cases parseJson bc <;> rfl
  refine ⟨hana, ?_, ?_⟩
  · unfold detectChangedPackages
    exact detect_records_split fs1 fs2 f rootPackage packages cwd _
  · intro pkg cs hmem
    rw [List.mem_flatMap] at hmem
    obtain ⟨f', hf', hrec⟩ := hmem
    have hff : f' = f := by
      have := (List.mem_filter.mp hf').1
      simpa using this
    subst hff
    unfold perFileRecords at hrec
    cases hfind : findByFilePath (loadWorkspace rootPackage packages) cwd
        f'.path with
    | none =>
      rw [hfind] at hrec
      simp at hrec
    | some pkg' =>
      rw [hfind] at hrec
      dsimp only at hrec
      by_cases hpriv : pkg'.packageJson.isPrivate
      · rw [if_pos hpriv] at hrec
        simp at hrec
      · rw [if_neg hpriv, hana] at hrec
        simp at hrec

/-- Witness for C7: a manifest whose base content is missing at the from
ref contributes zero dependency changes. -/
theorem c7_fetch_parse_failure_recovered_witness :
    analyzeDependencyChanges (fun _ _ => (none : Option String))
        (fun _ => (none : Option PackageJson)) "HEAD~1" "HEAD"
        [DepType.prod] (RawPath.relative ["package.json"]) = [] :=
  (c7_fetch_parse_failure_recovered (fun _ _ => none) (fun _ => none)
      "HEAD~1" "HEAD" [DepType.prod] none [] ⟨["repo"]⟩ [] []
      ⟨RawPath.relative ["package.json"], "modified"⟩
      (Or.inl rfl)).1

/-- **C2.** Before persisting a changeset for a package, the Writer reads
the existing persisted records and deletes exactly those whose summary
carries the AutoGeneratedMarker and whose release list names that same
package; a record lacking the marker is never removed, even if it
releases the same package; and `wasRecreated` is true iff such a prior
marked record existed and was removed.  The hypotheses state that
persisted ids are distinct and the freshly generated id is new. -/
theorem c2_writer_supersedes_only_marked
    (marker freshId packageName summary bumpType : String)
    (store : List ChangesetRecord)
    (hids : (store.map ChangesetRecord.id).Nodup)
    (hfresh : freshId ∉ store.map ChangesetRecord.id) :
    (∀ c ∈ store, staleForPackage marker packageName c = true →
        c ∉ (writeChangesetForPackage marker freshId packageName summary
          bumpType store).1) ∧
    (∀ c ∈ store, staleForPackage marker packageName c = false →
        c ∈ (writeChangesetForPackage marker freshId packageName summary
          bumpType store).1) ∧
    (∀ c ∈ store, isAutoGenerated marker c = false →
        c ∈ (writeChangesetForPackage marker freshId packageName summary
          bumpType store).1) ∧
    ((writeChangesetForPackage marker freshId packageName summary bumpType
        store).2.wasRecreated = true ↔
      ∃ c ∈ store, staleForPackage marker packageName c = true) := by
  have hkey : ∀ c ∈ store,
      ((store.filter (staleForPackage marker packageName)).map
        ChangesetRecord.id).contains c.id =
          staleForPackage marker packageName c := by
    intro c hc
    by_cases hs : staleForPackage marker packageName c = true
    · rw [hs]
      exact List.elem_iff.mpr
        (List.mem_map.mpr ⟨c, List.mem_filter.mpr ⟨hc, hs⟩, rfl⟩)
    · have hs' : staleForPackage marker packageName c = false := by
        simpa using hs
      rw [hs']
      rw [Bool.eq_false_iff]
      intro hcontains
      obtain ⟨d, hd, hdid⟩ := List.mem_map.mp (List.elem_iff.mp hcontains)
      obtain ⟨hdstore, hdstale⟩ := List.mem_filter.mp hd
      have : d = c := List.inj_on_of_nodup_map hids hdstore hc hdid
      rw [this] at hdstale
      exact hs hdstale
  have hnotnew : ∀ c ∈ store,
      c ≠ (⟨freshId, summary, [⟨packageName, bumpType⟩]⟩ : ChangesetRecord) := by
    intro c hc hEq
    exact hfresh (List.mem_map.mpr ⟨c, hc, by rw [hEq]⟩)
  have hmem2 : ∀ c ∈ store, staleForPackage marker packageName c = false →
      c ∈ (writeChangesetForPackage marker freshId packageName summary
        bumpType store).1 := by
    intro c hc hs
    unfold writeChangesetForPackage
    exact List.mem_append_left _
      (List.mem_filter.mpr ⟨hc, by rw [hkey c hc, hs]; rfl⟩)
  refine ⟨?_, hmem2, ?_, ?_⟩
  · intro c hc hs hmem
    unfold writeChangesetForPackage at hmem
    rcases List.mem_append.mp hmem with hk | hn
    · have := (List.mem_filter.mp hk).2
      rw [hkey c hc, hs] at this
      simp at this
    · exact hnotnew c hc (by simpa using hn)
  · intro c hc hauto
    apply hmem2 c hc
    unfold staleForPackage
    rw [hauto, Bool.false_and]
  · unfold writeChangesetForPackage
    dsimp only
    simp [List.map_eq_nil_iff, List.filter_eq_nil_iff]

/-- Witness for C2: over a store holding a marked changeset for `pkg-a`,
a hand-authored changeset for `pkg-a` and a marked changeset for `pkg-b`,
writing for `pkg-a` removes only the first record, keeps the other two,
and reports `wasRecreated`. -/
theorem c2_writer_supersedes_only_marked_witness :
    ((⟨"a1", "[auto] bump", [⟨"pkg-a", "patch"⟩]⟩ : ChangesetRecord) ∉
        (writeChangesetForPackage "[auto]" "f1" "pkg-a" "[auto] bump2"
          "patch"
          [⟨"a1", "[auto] bump", [⟨"pkg-a", "patch"⟩]⟩,
            ⟨"a2", "hand written", [⟨"pkg-a", "patch"⟩]⟩,
            ⟨"a3", "[auto] bump", [⟨"pkg-b", "patch"⟩]⟩]).1) ∧
    ((⟨"a2", "hand written", [⟨"pkg-a", "patch"⟩]⟩ : ChangesetRecord) ∈
        (writeChangesetForPackage "[auto]" "f1" "pkg-a" "[auto] bump2"
          "patch"
          [⟨"a1", "[auto] bump", [⟨"pkg-a", "patch"⟩]⟩,
            ⟨"a2", "hand written", [⟨"pkg-a", "patch"⟩]⟩,
            ⟨"a3", "[auto] bump", [⟨"pkg-b", "patch"⟩]⟩]).1) ∧
    (writeChangesetForPackage "[auto]" "f1" "pkg-a" "[auto] bump2" "patch"
        [⟨"a1", "[auto] bump", [⟨"pkg-a", "patch"⟩]⟩,
          ⟨"a2", "hand written", [⟨"pkg-a", "patch"⟩]⟩,
          ⟨"a3", "[auto] bump", [⟨"pkg-b", "patch"⟩]⟩]).2.wasRecreated =
      true := by
  have h := c2_writer_supersedes_only_marked "[auto]" "f1" "pkg-a"
    "[auto] bump2" "patch"
    [⟨"a1", "[auto] bump", [⟨"pkg-a", "patch"⟩]⟩,
      ⟨"a2", "hand written", [⟨"pkg-a", "patch"⟩]⟩,
      ⟨"a3", "[auto] bump", [⟨"pkg-b", "patch"⟩]⟩]
    (by decide) (by decide)
  exact ⟨h.1 _ (by decide) (by decide),
    h.2.2.1 _ (by decide) (by decide),
    h.2.2.2.mpr ⟨⟨"a1", "[auto] bump", [⟨"pkg-a", "patch"⟩]⟩, by decide,
      by decide⟩⟩

/-- **C4.** For every list of dependency changes, the rendered changeset
summary is the generic fallback text when the list is empty; a single
descriptive line with no heading when it has exactly one change; and,
when it has multiple changes, a heading line followed by one bullet per
change, grouped and ordered as all updated, then all added, then all
removed changes, each bullet naming the dependency and its old and/or
new version through `generateSingleLineSummary`. -/
theorem c4_summary_rendering (changes : List DependencyChange) :
    (changes = [] →
        generateSummaryFromChanges changes = "Updated dependencies") ∧
    (∀ c, changes = [c] →
        generateSummaryFromChanges changes = generateSingleLineSummary c) ∧
    (2 ≤ changes.length →
        generateSummaryFromChanges changes =
          String.intercalate "\n"
            ("Dependencies updated\n" ::
              (changes.filter (fun c => c.type == .updated) ++
                changes.filter (fun c => c.type == .added) ++
                changes.filter (fun c => c.type == .removed)).map
                fun c => "- " ++ generateSingleLineSummary c)) := by
  refine ⟨?_, ?_, ?_⟩
  · rintro rfl
    rfl
  · rintro c rfl
    rfl
  · intro hlen
    rcases changes with _ | ⟨a, _ | ⟨b, t⟩⟩
    · simp at hlen
    · simp at hlen
    · rfl

/-- Witness for C4: the three rendering shapes at concrete change
lists. -/
theorem c4_summary_rendering_witness :
    generateSummaryFromChanges [] = "Updated dependencies" ∧
    generateSummaryFromChanges
        [⟨"lodash", ChangeType.updated, some "^4.17.19", some "^4.17.21"⟩] =
      generateSingleLineSummary
        ⟨"lodash", ChangeType.updated, some "^4.17.19", some "^4.17.21"⟩ ∧
    generateSummaryFromChanges
        [⟨"axios", ChangeType.added, none, some "^1.4.0"⟩,
          ⟨"lodash", ChangeType.updated, some "^4.17.19", some "^4.17.21"⟩] =
      String.intercalate "\n"
        ("Dependencies updated\n" ::
          (([⟨"axios", ChangeType.added, none, some "^1.4.0"⟩,
              ⟨"lodash", ChangeType.updated, some "^4.17.19",
                some "^4.17.21"⟩] : List DependencyChange).filter
                (fun c => c.type == ChangeType.updated) ++
            ([⟨"axios", ChangeType.added, none, some "^1.4.0"⟩,
              ⟨"lodash", ChangeType.updated, some "^4.17.19",
                some "^4.17.21"⟩] : List DependencyChange).filter
                (fun c => c.type == ChangeType.added) ++
            ([⟨"axios", ChangeType.added, none, some "^1.4.0"⟩,
              ⟨"lodash", ChangeType.updated, some "^4.17.19",
                some "^4.17.21"⟩] : List DependencyChange).filter
                (fun c => c.type == ChangeType.removed)).map
            fun c => "- " ++ generateSingleLineSummary c) :=
  ⟨(c4_summary_rendering []).1 rfl,
    (c4_summary_rendering
        [⟨"lodash", ChangeType.updated, some "^4.17.19",
          some "^4.17.21"⟩]).2.1 _ rfl,
    (c4_summary_rendering
        [⟨"axios", ChangeType.added, none, some "^1.4.0"⟩,
          ⟨"lodash", ChangeType.updated, some "^4.17.19",
            some "^4.17.21"⟩]).2.2 (by decide)⟩

end Deps2Changesets
